import Mathlib

/-!
Verification of the FingerPrince remote-command agent (`agent/main.py`,
`agent/region_picker.py`).

Python strings are modelled as `List Char` (code-point sequences, so that
indices match Python's character indices).  Each definition in the first
part of this file is a direct translation of a function of the source;
theorems about the specification's claims follow.
-/

namespace FingerPrince

/-- Whitespace test used by Python's `str.strip` / `str.lstrip` on ASCII text. -/
def isPySpace (c : Char) : Bool :=
  c = ' ' || c = '\t' || c = '\n' || c = '\r' || c = '\x0b' || c = '\x0c'

/-- Python `s.lstrip()`. -/
def lstrip (s : List Char) : List Char := s.dropWhile isPySpace

/-- Python `s.rstrip()`. -/
def rstrip (s : List Char) : List Char := (s.reverse.dropWhile isPySpace).reverse

/-- Python `s.strip()`. -/
def strip (s : List Char) : List Char := rstrip (lstrip s)

/-- Python `s.lower()` (per-character lowering; the markers and text in play
are ASCII or caseless). -/
def lower (s : List Char) : List Char := s.map Char.toLower

/-- Python `s.replace("\r\n", "\n")` (left-to-right, non-overlapping). -/
def normalizeCRLF : List Char → List Char
  | [] => []
  | '\r' :: '\n' :: rest => '\n' :: normalizeCRLF rest
  | c :: rest => c :: normalizeCRLF rest

/-- Python `s.split(sep)` for a one-character separator: `"".split(",") = [""]`,
separators at the ends produce empty fields. -/
def splitOnChar (sep : Char) : List Char → List (List Char)
  | [] => [[]]
  | c :: rest =>
    match splitOnChar sep rest with
    | [] => [[c]]
    | g :: gs => if c = sep then [] :: g :: gs else (c :: g) :: gs

/-- Helper for `rfind`: the largest index `j ≤ i` at which `needle` occurs in
`hay`, scanning downward from `i`. -/
def lastOccFrom (needle hay : List Char) : Nat → Option Nat
  | 0 => if needle.isPrefixOf hay then some 0 else none
  | i + 1 =>
    if needle.isPrefixOf (hay.drop (i + 1)) then some (i + 1) else lastOccFrom needle hay i

/-- Python `hay.rfind(needle)`: index of the right-most occurrence, `-1` if none. -/
def rfind (needle hay : List Char) : Int :=
  match lastOccFrom needle hay hay.length with
  | some i => Int.ofNat i
  | none => -1

/-- The marker list parsed from the `AI_ANSWER_MARKERS` configuration string:
`[m.strip() for m in cfg.split(",") if m.strip()]`. -/
def parseMarkers (cfg : List Char) : List (List Char) :=
  ((splitOnChar ',' cfg).map strip).filter (fun m => m ≠ [])

/-- One iteration of the marker-selection loop of `_extract_last_ai_answer`
(main.py lines 341-345): replace `(best_idx, best_marker)` whenever this
marker's right-most occurrence is strictly further right. -/
def findBestStep (lowered : List Char) (best : Int × List Char) (m : List Char) :
    Int × List Char :=
  let idx := rfind (lower m) lowered
  if best.1 < idx then (idx, m) else best

/-- The marker-selection loop of `_extract_last_ai_answer` (main.py lines
339-345), starting from `best_idx = -1`, `best_marker = ""`. -/
def findBest (markers : List (List Char)) (lowered : List Char) : Int × List Char :=
  markers.foldl (findBestStep lowered) (-1, [])

/-- `_extract_last_ai_answer` (main.py lines 330-355), parameterised by the
`AI_ANSWER_MARKERS` configuration string. -/
def extractLastAiAnswer (markersCfg : List Char) (fullText : List Char) : List Char :=
  let text := strip (normalizeCRLF fullText)
  if text = [] then []
  else
    let markers := parseMarkers markersCfg
    let lowered := lower text
    let best := findBest markers lowered
    if 0 ≤ best.1 then
      strip (lstrip (text.drop (best.1.toNat + best.2.length)))
    else
      let lines := splitOnChar '\n' text
      strip (List.intercalate ['\n'] (lines.drop (lines.length - 120)))

/-- Occurrence predicate for the extraction claims: marker `m` occurs
case-insensitively at character index `i` of `text`. -/
def MarkerOccursAt (m text : List Char) (i : Nat) : Prop :=
  (lower m).isPrefixOf ((lower text).drop i) = true

instance (m text : List Char) (i : Nat) : Decidable (MarkerOccursAt m text i) := by
  unfold MarkerOccursAt; infer_instance

/-- `Rect` from `region_picker.py`. -/
structure Rect where
  left : Int
  top : Int
  width : Int
  height : Int
deriving DecidableEq, Repr

/-- `Rect.clamp` (region_picker.py lines 17-22). -/
def Rect.clamp (r : Rect) (screenW screenH : Int) : Rect :=
  let w := max 40 r.width
  let h := max 40 r.height
  let l := max 0 (min r.left (screenW - w))
  let t := max 0 (min r.top (screenH - h))
  ⟨l, t, w, h⟩

/-- A clamped rectangle lying fully inside the screen `[0, screenW) × [0, screenH)`. -/
def Rect.insideScreen (r : Rect) (screenW screenH : Int) : Prop :=
  0 ≤ r.left ∧ 0 ≤ r.top ∧ r.left + r.width ≤ screenW ∧ r.top + r.height ≤ screenH

instance (r : Rect) (screenW screenH : Int) : Decidable (r.insideScreen screenW screenH) := by
  unfold Rect.insideScreen; infer_instance

/-- A candidate window as consulted by `_score_window`: activity, minimisation
and pixel size. -/
structure WindowInfo where
  isActive : Bool
  isMinimized : Bool
  width : Nat
  height : Nat
deriving DecidableEq, Repr

/-- `_score_window` (main.py lines 386-402):
`1_000_000·isActive + 100_000·(not isMinimized) + width·height`. -/
def scoreWindow (w : WindowInfo) : Nat :=
  (if w.isActive then 1000000 else 0) +
    (if w.isMinimized then 0 else 100000) +
      w.width * w.height

/-- The configuration consulted by one focus resolution (`_focus_input` uses the
input-side settings, the focus step of `_copy_transcript_text` the output-side
ones).  `imageExists` models whether the configured template file is present on
disk, `imageFound` whether the bounded-time screen search matches it. -/
structure FocusConfig where
  focusHotkey : List Char
  region : Option (Int × Int × Int × Int)
  image : List Char
  imageExists : Bool
  imageFound : Bool
  point : Option (Int × Int)
deriving DecidableEq, Repr

/-- GUI actions issued while resolving focus and copying the transcript. -/
inductive FocusAct where
  | hotkeyAct (keys : List Char)
  | clickXY (x y : Int)
  | imageSearch (found : Bool)
  | imageClick
  | dragSelect (l t w h : Int)
  | pressCtrlA
  | pressCtrlC
  | setClipboard (s : List Char)
deriving DecidableEq, Repr

/-- `_click_by_image` (main.py lines 284-315): no-op on an empty path, raises if
the template file is missing, otherwise searches the screen for up to the
timeout and clicks the found centre.  Returns the actions performed and whether
a click happened. -/
def clickByImage (image : List Char) (imageExists imageFound : Bool) :
    Except (List Char) (List FocusAct × Bool) :=
  if image = [] then .ok ([], false)
  else if imageExists = false then
    .error (("Image template not found: ").data ++ image)
  else if imageFound then .ok ([.imageSearch true, .imageClick], true)
  else .ok ([.imageSearch false], false)

/-- `_focus_input` (main.py lines 484-509): hotkey, else region-centre click,
else image-template click, else fixed point, else raise. -/
def focusInput (c : FocusConfig) : Except (List Char) (List FocusAct) :=
  if c.focusHotkey ≠ [] then .ok [.hotkeyAct c.focusHotkey]
  else
    match c.region with
    | some (l, t, w, h) => .ok [.clickXY (l + w / 2) (t + h / 2)]
    | none =>
      match clickByImage c.image c.imageExists c.imageFound with
      | .error e => .error e
      | .ok (acts, true) => .ok acts
      | .ok (acts, false) =>
        match c.point with
        | some (x, y) => .ok (acts ++ [.clickXY x y])
        | none =>
          .error ("No way to focus input. Set IDE_CHAT_FOCUS_HOTKEY or IDE_INPUT_REGION or IDE_INPUT_IMAGE or IDE_INPUT_POS.").data

/-- The focus step of `_copy_transcript_text` (main.py lines 516-535):
the same hotkey → region → image → point priority, with the transcript-side
settings and error message. -/
def focusTranscriptActs (c : FocusConfig) : Except (List Char) (List FocusAct) :=
  if c.focusHotkey ≠ [] then .ok [.hotkeyAct c.focusHotkey]
  else
    match c.region with
    | some (l, t, w, h) => .ok [.clickXY (l + w / 2) (t + h / 2)]
    | none =>
      match clickByImage c.image c.imageExists c.imageFound with
      | .error e => .error e
      | .ok (acts, true) => .ok acts
      | .ok (acts, false) =>
        match c.point with
        | some (x, y) => .ok (acts ++ [.clickXY x y])
        | none =>
          .error ("No way to focus transcript. Set IDE_FOCUS_TRANSCRIPT_HOTKEY or IDE_OUTPUT_REGION or IDE_OUTPUT_IMAGE or IDE_OUTPUT_POS.").data

/-- The sentinel string `f"__server_vibe_clip_sentinel_{time.time_ns()}__"`
(main.py line 513) for a given nanosecond timestamp. -/
def sentinelFor (timeNs : Nat) : List Char :=
  ("__server_vibe_clip_sentinel_").data ++ (Nat.repr timeNs).data ++ ("__").data

/-- The polling loop of `_clipboard_wait_for_change` (main.py lines 318-327).
`reads k` is the clipboard content seen by the `k`-th `paste()` call; the time
budget is modelled as a number of in-loop polls, and on expiry one final read
is returned unconditionally. -/
def clipboardWaitGo (reads : Nat → List Char) (old : List Char) :
    Nat → Nat → List Char
  | i, 0 => reads i
  | i, n + 1 =>
    let cur := reads i
    if cur ≠ old ∧ strip cur ≠ [] then cur else clipboardWaitGo reads old (i + 1) n

/-- `_clipboard_wait_for_change(old)`: poll until the clipboard differs from
`old` and is non-blank, else return the final read. -/
def clipboardWaitForChange (reads : Nat → List Char) (polls : Nat)
    (old : List Char) : List Char :=
  clipboardWaitGo reads old 0 polls

/-- `_copy_transcript_text` (main.py lines 511-558): write the time-based
sentinel to the clipboard, focus the transcript, issue the copy gesture
(explicit hotkey, or drag-select inside the output region plus Ctrl+C, or
select-all plus Ctrl+C), then wait for the clipboard to change.  The drag
coordinates are abstracted by recording the region being dragged in. -/
def copyTranscriptText (c : FocusConfig) (copyHotkey : List Char) (timeNs : Nat)
    (reads : Nat → List Char) (polls : Nat) :
    Except (List Char) (List FocusAct × List Char) :=
  let sentinel := sentinelFor timeNs
  match focusTranscriptActs c with
  | .error e => .error e
  | .ok facts =>
    let copyActs :=
      if copyHotkey ≠ [] then [FocusAct.hotkeyAct copyHotkey]
      else
        match c.region with
        | some (l, t, w, h) => [FocusAct.dragSelect l t w h, FocusAct.pressCtrlC]
        | none => [FocusAct.pressCtrlA, FocusAct.pressCtrlC]
    .ok (FocusAct.setClipboard sentinel :: (facts ++ copyActs),
      clipboardWaitForChange reads polls sentinel)

/-- The literal placeholder answer of `ide_chat_via_gui`. -/
def noAnswerPlaceholder : List Char := ("(no answer extracted)").data

/-- The success criterion of the send/retry loop (main.py line 578):
`answer and answer != "(no answer extracted)" and len(answer.strip()) >= 4`. -/
def answerOk (ans : List Char) : Bool :=
  if ans = [] then false
  else if ans = noAnswerPlaceholder then false
  else decide (4 ≤ (strip ans).length)

/-- GUI events of the send/retry controller of `ide_chat_via_gui`. -/
inductive ChatEvent where
  | setClipboardQuestion
  | focusInputEvt
  | pasteClipboard
  | pressEnter
  | waitResp
  | copyAttempt (k : Nat)
deriving DecidableEq, Repr

/-- Does the event perform a transcript copy plus extraction (one send attempt's
observation)? -/
def isCopyEvent : ChatEvent → Bool
  | .copyAttempt _ => true
  | _ => false

/-- The `for attempt in range(total_tries)` loop of `ide_chat_via_gui` (main.py
lines 570-584).  `ex k` is the answer extracted on attempt `k`; the pair holds
the events issued and the final value of `answer`. -/
def chatAttemptLoop (ex : Nat → List Char) : Nat → Nat → List ChatEvent × List Char
  | _, 0 => ([], [])
  | k, r + 1 =>
    let ans := ex k
    if answerOk ans then ([.waitResp, .copyAttempt k], ans)
    else if r = 0 then ([.waitResp, .copyAttempt k], ans)
    else
      let rest := chatAttemptLoop ex (k + 1) r
      (ChatEvent.waitResp :: ChatEvent.copyAttempt k :: ChatEvent.focusInputEvt ::
        ChatEvent.pressEnter :: rest.1, rest.2)

/-- The send/retry controller of `ide_chat_via_gui` (main.py lines 560-589):
paste the question and submit once, then run up to `max 1 (1 + retryCount)`
attempts, each copying the transcript and extracting an answer; failed
non-final attempts re-focus the input and press Enter again; an empty final
answer becomes the placeholder.  `copyFn k` is the transcript text copied on
attempt `k`. -/
def ideChatSendRetry (markersCfg : List Char) (copyFn : Nat → List Char)
    (retryCount : Int) : List ChatEvent × List Char :=
  let totalTries := (max 1 (1 + retryCount)).toNat
  let ex := fun k => extractLastAiAnswer markersCfg (copyFn k)
  let run := chatAttemptLoop ex 0 totalTries
  let answer := if run.2 = [] then noAnswerPlaceholder else run.2
  (ChatEvent.setClipboardQuestion :: ChatEvent.focusInputEvt ::
    ChatEvent.pasteClipboard :: ChatEvent.pressEnter :: run.1, answer)

/-- Job status values of the `commands` table. -/
inductive JobStatus where
  | pending
  | processing
  | completed
  | errorStatus
deriving DecidableEq, Repr

/-- A row of the `commands` table as consumed by `handle_command`. -/
structure CommandRow where
  id : List Char
  userId : List Char
  commandText : List Char
  status : JobStatus
deriving DecidableEq, Repr

/-- The command recognised by the dispatch chain of `handle_command`. -/
inductive Branch where
  | posQuery
  | learnInput
  | learnOutput
  | ideStatusCmd
  | calibrateRegions
  | calibrateInput
  | calibrateOutput
  | debugScreen
  | debugLocate (kind : List Char)
  | capture
  | openApp (name : List Char)
  | openAppEmpty
  | whoami
  | shCmd (cmdText : List Char)
  | shEmpty
  | chat (q : List Char) (target : List Char)
deriving DecidableEq, Repr

/-- The routing-prefix stripping of the chat fallback (main.py lines 1106-1112):
a leading `@ag ` / `@antigravity ` / `@vscode ` / `@cursor ` (case-insensitive)
selects a target and is removed with `lstrip`. -/
def routeChat (ideTarget q : List Char) : Branch :=
  if ("@ag ").data.isPrefixOf (lower q) then
    .chat (lstrip (q.drop 4)) ("antigravity").data
  else if ("@antigravity ").data.isPrefixOf (lower q) then
    .chat (lstrip (q.drop 13)) ("antigravity").data
  else if ("@vscode ").data.isPrefixOf (lower q) then
    .chat (lstrip (q.drop 8)) ("vscode").data
  else if ("@cursor ").data.isPrefixOf (lower q) then
    .chat (lstrip (q.drop 8)) ("cursor").data
  else .chat q ideTarget

/-- The branch-selection chain of `handle_command` (main.py lines 993-1116),
applied to the already-stripped command text. -/
def parseCommand (ideTarget t : List Char) : Branch :=
  if t = ("/pos").data then .posQuery
  else if t = ("/ide learn input").data then .learnInput
  else if t = ("/ide learn output").data then .learnOutput
  else if t = ("/ide status").data then .ideStatusCmd
  else if t = ("/ide calibrate regions").data then .calibrateRegions
  else if t = ("/ide calibrate input").data then .calibrateInput
  else if t = ("/ide calibrate output").data then .calibrateOutput
  else if t = ("/ide debug screen").data then .debugScreen
  else if ("/ide debug locate ").data.isPrefixOf t then
    .debugLocate (lower (strip (t.drop 18)))
  else if t = ("/capture").data then .capture
  else if ("/open ").data.isPrefixOf t then
    let appName := strip (t.drop 6)
    if appName = [] then .openAppEmpty else .openApp appName
  else if lower (strip t) = ("whoami").data then .whoami
  else if ("/sh ").data.isPrefixOf t then
    let shellText := strip (t.drop 4)
    if shellText = [] then .shEmpty else .shCmd shellText
  else routeChat ideTarget t

/-- Outcome of running one branch under the `try`/`except` of `handle_command`:
a handler that returns yields a `completed` write with its log, a handler that
raises yields an `errorStatus` write with the exception message; the two usage
errors raised inside `handle_command` itself before any handler runs are the
corresponding `ValueError` messages. -/
def exceptToWrite : Except (List Char) (List Char) → JobStatus × List Char
  | .ok log => (.completed, log)
  | .error e => (.errorStatus, e)

/-- The status write produced by dispatching one parsed branch under the
`try`/`except` of `handle_command`. -/
def runBranchOutcome (run : Branch → Except (List Char) (List Char)) :
    Branch → JobStatus × List Char
  | .openAppEmpty => (.errorStatus, ("Usage: /open [app_name]").data)
  | .shEmpty => (.errorStatus, ("Usage: /sh [shell command]").data)
  | b => exceptToWrite (run b)

/-- Result of `handle_command` on one row: the `update_command` writes issued
(in order), whether the conditional claim update was attempted, the job's
status right after the claim step, and whether a command handler ran. -/
structure HandleResult where
  writes : List (JobStatus × List Char)
  claimAttempted : Bool
  dbAfterClaim : JobStatus
  handlerRan : Bool
deriving DecidableEq, Repr

/-- `handle_command` (main.py lines 957-1122).  `row` is the polled snapshot;
`dbStatus` is the job's status in the table at the moment of the conditional
claim update (the claim returns rows exactly when it is still `pending`);
`run` gives each branch handler's outcome. -/
def handleCommand (agentUserId ideTarget : List Char) (row : CommandRow)
    (dbStatus : JobStatus) (run : Branch → Except (List Char) (List Char)) :
    HandleResult :=
  let commandText := strip row.commandText
  if row.id = [] ∨ row.userId = [] then ⟨[], false, dbStatus, false⟩
  else if agentUserId ≠ [] ∧ row.userId ≠ agentUserId then ⟨[], false, dbStatus, false⟩
  else if row.status ≠ .pending then ⟨[], false, dbStatus, false⟩
  else if commandText = [] then
    ⟨[(.errorStatus, ("Empty command_text").data)], false, dbStatus, false⟩
  else if dbStatus ≠ .pending then ⟨[], true, dbStatus, false⟩
  else
    let w := runBranchOutcome run (parseCommand ideTarget commandText)
    ⟨[(.processing, ("Command received").data), w], true, .processing, true⟩

/-- Does the action belong to the image-template method? -/
def isImageAct : FocusAct → Bool
  | .imageSearch _ => true
  | .imageClick => true
  | _ => false

/-- Does the action click a screen coordinate (region-centre or fixed point)? -/
def isClickAct : FocusAct → Bool
  | .clickXY _ _ => true
  | _ => false

/-! ## Claim C4: window-score monotonicity -/

/-- C4 counterexample: the claim says an active window always scores strictly
higher than any non-active window regardless of widths and heights, but a
non-active, non-minimized 1920×1080 window outscores an active 100×100 one
under `1_000_000·isActive + 100_000·(not isMinimized) + width·height`. -/
theorem C4_counterexample :
    (⟨true, false, 100, 100⟩ : WindowInfo).isActive = true ∧
    (⟨false, false, 1920, 1080⟩ : WindowInfo).isActive = false ∧
    scoreWindow ⟨true, false, 100, 100⟩ < scoreWindow ⟨false, false, 1920, 1080⟩ := by
  decide

/-- C4 (amended): window scoring is monotonic in activity provided the
non-active window's area exceeds the active one's by less than 900 000, and
monotonic in minimisation at equal activity provided the minimized window's
area exceeds the non-minimized one's by less than 100 000. -/
theorem C4_score_monotonic_amended (w1 w2 : WindowInfo) :
    (w1.isActive = true → w2.isActive = false →
      w2.width * w2.height < 900000 + w1.width * w1.height →
      scoreWindow w2 < scoreWindow w1) ∧
    (w1.isActive = w2.isActive → w1.isMinimized = false → w2.isMinimized = true →
      w2.width * w2.height < 100000 + w1.width * w1.height →
      scoreWindow w2 < scoreWindow w1) := by
  obtain ⟨a1, m1, x1, y1⟩ := w1
  obtain ⟨a2, m2, x2, y2⟩ := w2
  constructor
  · rintro rfl rfl h
    simp only [scoreWindow] at h ⊢
    dsimp only at h ⊢
    cases m1 <;> cases m2 <;> simp only [if_true, if_false, Bool.false_eq_true] <;> omega
  · rintro ha rfl rfl h
    simp only [scoreWindow] at h ⊢
    dsimp only at h ⊢
    cases a1 <;> cases a2 <;>
      simp only [if_true, if_false, Bool.false_eq_true] at ha ⊢ <;> omega

/-- C4 witness: an active minimized 10×10 window outranks a non-active
non-minimized 500×500 window, whose area is within the 900 000 margin. -/
theorem C4_witness :
    scoreWindow ⟨false, false, 500, 500⟩ < scoreWindow ⟨true, true, 10, 10⟩ :=
  (C4_score_monotonic_amended ⟨true, true, 10, 10⟩ ⟨false, false, 500, 500⟩).1
    rfl rfl (by decide)

/-! ## Claim C5: `Rect.clamp` stays on screen with minimum size -/

/-- C5 counterexample: `clamp` does not fit every rectangle into every screen;
a 100×100 rectangle clamped to a 50×50 screen still sticks out
(`clamp` never shrinks below the requested width). -/
theorem C5_counterexample :
    ¬ (Rect.clamp ⟨0, 0, 100, 100⟩ 50 50).insideScreen 50 50 := by
  decide

/-- C5 (amended): `clamp` enforces width and height of at least 40 for every
rectangle and every screen size, unconditionally; and whenever the screen can
hold the clamped size (`max 40 width ≤ screen_w` and
`max 40 height ≤ screen_h`), the result also lies fully inside
`[0, screen_w) × [0, screen_h)`. -/
theorem C5_clamp_amended (r : Rect) (screenW screenH : Int) :
    40 ≤ (r.clamp screenW screenH).width ∧
    40 ≤ (r.clamp screenW screenH).height ∧
    (max 40 r.width ≤ screenW → max 40 r.height ≤ screenH →
      (r.clamp screenW screenH).insideScreen screenW screenH) := by
  simp only [Rect.clamp, Rect.insideScreen]
  omega

/-- C5 witness: the min-size conjuncts hold even on a 30×30 screen that cannot
contain the clamped rectangle, and a 10×600 rectangle at (-5, 300) fits fully
inside a 1920×1080 screen. -/
theorem C5_witness :
    40 ≤ (Rect.clamp ⟨0, 0, 1, 1⟩ 30 30).width ∧
    40 ≤ (Rect.clamp ⟨0, 0, 1, 1⟩ 30 30).height ∧
    (Rect.clamp ⟨-5, 300, 10, 600⟩ 1920 1080).insideScreen 1920 1080 :=
  ⟨(C5_clamp_amended ⟨0, 0, 1, 1⟩ 30 30).1,
    (C5_clamp_amended ⟨0, 0, 1, 1⟩ 30 30).2.1,
    (C5_clamp_amended ⟨-5, 300, 10, 600⟩ 1920 1080).2.2 (by decide) (by decide)⟩

/-! ## Claims C6, C9, C10: `handle_command` status discipline -/

/-- Every branch outcome carries a terminal status. -/
theorem runBranchOutcome_terminal
    (run : Branch → Except (List Char) (List Char)) (b : Branch) :
    (runBranchOutcome run b).1 = .completed ∨ (runBranchOutcome run b).1 = .errorStatus := by
  have key : ∀ r : Except (List Char) (List Char),
      (exceptToWrite r).1 = .completed ∨ (exceptToWrite r).1 = .errorStatus := by
    rintro (log | e) <;> simp [exceptToWrite]
  cases b <;> simp only [runBranchOutcome] <;> first | exact Or.inr trivial | exact key _

/-- A branch whose handler raises is reported as an error carrying the
exception message. -/
theorem runBranchOutcome_error
    (run : Branch → Except (List Char) (List Char)) (b : Branch) (e : List Char)
    (h1 : b ≠ .openAppEmpty) (h2 : b ≠ .shEmpty) (he : run b = .error e) :
    runBranchOutcome run b = (.errorStatus, e) := by
  cases b <;> simp only [runBranchOutcome] <;>
    first
      | exact absurd rfl h1
      | exact absurd rfl h2
      | simp [he, exceptToWrite]

/-- C6: once a job is claimed, `handle_command` issues exactly one further
status write, and its status is terminal (`completed` or `error`); a handler
exception in any branch that consults a handler is reported as `error` with
the exception message as the log, so the job never stays `processing`. -/
theorem C6_terminal_status (agentUserId ideTarget : List Char) (row : CommandRow)
    (dbStatus : JobStatus) (run : Branch → Except (List Char) (List Char))
    (hid : row.id ≠ []) (huser : row.userId ≠ [])
    (hfilter : agentUserId = [] ∨ row.userId = agentUserId)
    (hstatus : row.status = .pending)
    (htext : strip row.commandText ≠ [])
    (hdb : dbStatus = .pending) :
    (handleCommand agentUserId ideTarget row dbStatus run).writes =
      [(.processing, ("Command received").data),
        runBranchOutcome run (parseCommand ideTarget (strip row.commandText))] ∧
    ((runBranchOutcome run (parseCommand ideTarget (strip row.commandText))).1 = .completed ∨
      (runBranchOutcome run (parseCommand ideTarget (strip row.commandText))).1 = .errorStatus) ∧
    (∀ e, parseCommand ideTarget (strip row.commandText) ≠ .openAppEmpty →
      parseCommand ideTarget (strip row.commandText) ≠ .shEmpty →
      run (parseCommand ideTarget (strip row.commandText)) = .error e →
      runBranchOutcome run (parseCommand ideTarget (strip row.commandText)) =
        (.errorStatus, e)) := by
  have h1 : ¬(row.id = [] ∨ row.userId = []) := by tauto
  have h2 : ¬(agentUserId ≠ [] ∧ row.userId ≠ agentUserId) := by tauto
  have h3 : ¬(row.status ≠ JobStatus.pending) := by simp [hstatus]
  have h4 : ¬(dbStatus ≠ JobStatus.pending) := by simp [hdb]
  refine ⟨?_, runBranchOutcome_terminal run _, fun e => runBranchOutcome_error run _ e⟩
  simp [handleCommand, h1, h2, h3, h4, htext]

/-- C6 witness: a claimed `/capture` job whose handler raises is finished with
exactly one terminal `error` write carrying the exception message. -/
theorem C6_witness :
    (handleCommand [] (("vscode").data)
        ⟨("1").data, ("u").data, ("/capture").data, .pending⟩ .pending
        (fun _ => .error (("boom").data))).writes =
      [(.processing, ("Command received").data),
        runBranchOutcome (fun _ => .error (("boom").data))
          (parseCommand (("vscode").data) (strip (("/capture").data)))] ∧
    ((runBranchOutcome (fun _ => .error (("boom").data))
        (parseCommand (("vscode").data) (strip (("/capture").data)))).1 = .completed ∨
      (runBranchOutcome (fun _ => .error (("boom").data))
        (parseCommand (("vscode").data) (strip (("/capture").data)))).1 = .errorStatus) ∧
    (∀ e, parseCommand (("vscode").data) (strip (("/capture").data)) ≠ .openAppEmpty →
      parseCommand (("vscode").data) (strip (("/capture").data)) ≠ .shEmpty →
      (fun (_ : Branch) => Except.error (α := List Char) (("boom").data))
          (parseCommand (("vscode").data) (strip (("/capture").data))) = .error e →
      runBranchOutcome (fun _ => .error (("boom").data))
        (parseCommand (("vscode").data) (strip (("/capture").data))) =
          (.errorStatus, e)) :=
  C6_terminal_status [] (("vscode").data)
    ⟨("1").data, ("u").data, ("/capture").data, .pending⟩ .pending
    (fun _ => .error (("boom").data))
    (by decide) (by decide) (Or.inl rfl) rfl (by decide) rfl

/-- C9: for a polled pending row, `handle_command` claims via a single
conditional update: the claim is attempted exactly when the guards pass, it
transitions the job to `processing` only when the table status is still
`pending`, and a lost race (table status no longer `pending`) makes the
handler return silently with no writes and no handler execution. -/
theorem C9_claim_race (agentUserId ideTarget : List Char) (row : CommandRow)
    (dbStatus : JobStatus) (run : Branch → Except (List Char) (List Char))
    (hid : row.id ≠ []) (huser : row.userId ≠ [])
    (hfilter : agentUserId = [] ∨ row.userId = agentUserId)
    (hstatus : row.status = .pending)
    (htext : strip row.commandText ≠ []) :
    (handleCommand agentUserId ideTarget row dbStatus run).claimAttempted = true ∧
    (dbStatus ≠ .pending →
      handleCommand agentUserId ideTarget row dbStatus run =
        ⟨[], true, dbStatus, false⟩) ∧
    (dbStatus = .pending →
      (handleCommand agentUserId ideTarget row dbStatus run).dbAfterClaim = .processing) := by
  have h1 : ¬(row.id = [] ∨ row.userId = []) := by tauto
  have h2 : ¬(agentUserId ≠ [] ∧ row.userId ≠ agentUserId) := by tauto
  have h3 : ¬(row.status ≠ JobStatus.pending) := by simp [hstatus]
  refine ⟨?_, fun hdb => ?_, fun hdb => ?_⟩
  · by_cases hdb : dbStatus = JobStatus.pending
    · have h4 : ¬(dbStatus ≠ JobStatus.pending) := by simp [hdb]
      simp [handleCommand, h1, h2, h3, h4, htext]
    · simp [handleCommand, h1, h2, h3, hdb, htext]
  · simp [handleCommand, h1, h2, h3, hdb, htext]
  · have h4 : ¬(dbStatus ≠ JobStatus.pending) := by simp [hdb]
    simp [handleCommand, h1, h2, h3, h4, htext]

/-- C9 witness: a chat job whose table status has already moved to
`processing` loses the claim race and produces no writes at all. -/
theorem C9_witness :
    (handleCommand [] (("vscode").data)
        ⟨("1").data, ("u").data, ("hello there").data, .pending⟩ .processing
        (fun _ => .ok [])).claimAttempted = true ∧
    (JobStatus.processing ≠ JobStatus.pending →
      handleCommand [] (("vscode").data)
        ⟨("1").data, ("u").data, ("hello there").data, .pending⟩ .processing
        (fun _ => .ok []) = ⟨[], true, .processing, false⟩) ∧
    (JobStatus.processing = JobStatus.pending →
      (handleCommand [] (("vscode").data)
        ⟨("1").data, ("u").data, ("hello there").data, .pending⟩ .processing
        (fun _ => .ok [])).dbAfterClaim = .processing) :=
  C9_claim_race [] (("vscode").data)
    ⟨("1").data, ("u").data, ("hello there").data, .pending⟩ .processing
    (fun _ => .ok []) (by decide) (by decide) (Or.inl rfl) rfl (by decide)

/-- C10: a pending row with whitespace-only command text is finished with a
single unconditional `error` write logging `Empty command_text`, before any
claim is attempted, so the job moves from `pending` directly to `error`
without ever being `processing` (and the write is not status-guarded: it
happens whatever the table status is). -/
theorem C10_empty_command (agentUserId ideTarget : List Char) (row : CommandRow)
    (dbStatus : JobStatus) (run : Branch → Except (List Char) (List Char))
    (hid : row.id ≠ []) (huser : row.userId ≠ [])
    (hfilter : agentUserId = [] ∨ row.userId = agentUserId)
    (hstatus : row.status = .pending)
    (hempty : strip row.commandText = []) :
    handleCommand agentUserId ideTarget row dbStatus run =
      ⟨[(.errorStatus, ("Empty command_text").data)], false, dbStatus, false⟩ := by
  have h1 : ¬(row.id = [] ∨ row.userId = []) := by tauto
  have h2 : ¬(agentUserId ≠ [] ∧ row.userId ≠ agentUserId) := by tauto
  have h3 : ¬(row.status ≠ JobStatus.pending) := by simp [hstatus]
  simp [handleCommand, h1, h2, h3, hempty]

/-- C10 witness: a row whose command text is two spaces is finished as `error`
with log `Empty command_text` and no claim attempt, even though the table
status is no longer `pending`. -/
theorem C10_witness :
    handleCommand [] (("vscode").data)
        ⟨("1").data, ("u").data, ("  ").data, .pending⟩ .completed
        (fun _ => .ok []) =
      ⟨[(.errorStatus, ("Empty command_text").data)], false, .completed, false⟩ :=
  C10_empty_command [] (("vscode").data)
    ⟨("1").data, ("u").data, ("  ").data, .pending⟩ .completed
    (fun _ => .ok []) (by decide) (by decide) (Or.inl rfl) rfl (by decide)

/-! ## Claim C7: focus-method priority -/

/-- C7 counterexample: with no hotkey, no region, a configured-but-unmatched
image template, and a configured point, `_focus_input` exercises two of the
four methods in one resolution — it searches for the image template and then
clicks the fixed point — contradicting "each try exactly one method". -/
theorem C7_counterexample :
    focusInput ⟨[], none, ("img.png").data, true, false, some (5, 5)⟩ =
      .ok [.imageSearch false, .clickXY 5 5] ∧
    ([FocusAct.imageSearch false, FocusAct.clickXY 5 5]).any isImageAct = true ∧
    ([FocusAct.imageSearch false, FocusAct.clickXY 5 5]).any isClickAct = true :=
  ⟨rfl, rfl, rfl⟩

/-- C7 (amended): focus resolution for the input box and the transcript area
follows the strict priority hotkey → region-centre click → image-template
match → fixed point, except that a configured image template that fails to
match falls through to the fixed point (two methods exercised); when none of
the four options is configured, the operation fails with a descriptive error
naming the exact missing configuration options. -/
theorem C7_focus_priority_amended (c : FocusConfig) :
    (c.focusHotkey ≠ [] →
      focusInput c = .ok [.hotkeyAct c.focusHotkey] ∧
      focusTranscriptActs c = .ok [.hotkeyAct c.focusHotkey]) ∧
    (∀ l t w h, c.focusHotkey = [] → c.region = some (l, t, w, h) →
      focusInput c = .ok [.clickXY (l + w / 2) (t + h / 2)] ∧
      focusTranscriptActs c = .ok [.clickXY (l + w / 2) (t + h / 2)]) ∧
    (c.focusHotkey = [] → c.region = none → c.image ≠ [] → c.imageExists = true →
      c.imageFound = true →
      focusInput c = .ok [.imageSearch true, .imageClick] ∧
      focusTranscriptActs c = .ok [.imageSearch true, .imageClick]) ∧
    (∀ x y, c.focusHotkey = [] → c.region = none → c.image = [] → c.point = some (x, y) →
      focusInput c = .ok [.clickXY x y] ∧
      focusTranscriptActs c = .ok [.clickXY x y]) ∧
    (∀ x y, c.focusHotkey = [] → c.region = none → c.image ≠ [] → c.imageExists = true →
      c.imageFound = false → c.point = some (x, y) →
      focusInput c = .ok [.imageSearch false, .clickXY x y] ∧
      focusTranscriptActs c = .ok [.imageSearch false, .clickXY x y]) ∧
    (c.focusHotkey = [] → c.region = none → c.image = [] → c.point = none →
      focusInput c =
        .error ("No way to focus input. Set IDE_CHAT_FOCUS_HOTKEY or IDE_INPUT_REGION or IDE_INPUT_IMAGE or IDE_INPUT_POS.").data ∧
      focusTranscriptActs c =
        .error ("No way to focus transcript. Set IDE_FOCUS_TRANSCRIPT_HOTKEY or IDE_OUTPUT_REGION or IDE_OUTPUT_IMAGE or IDE_OUTPUT_POS.").data) := by
  obtain ⟨hk, reg, img, iex, ifnd, pt⟩ := c
  refine ⟨fun h => ?_, fun l t w h hk0 hr => ?_, fun hk0 hr himg hex hf => ?_,
    fun x y hk0 hr himg hp => ?_, fun x y hk0 hr himg hex hf hp => ?_,
    fun hk0 hr himg hp => ?_⟩ <;>
    simp_all [focusInput, focusTranscriptActs, clickByImage]

/-- C7 witness: with nothing configured, both resolutions fail with the
descriptive errors naming the missing options. -/
theorem C7_witness :
    focusInput ⟨[], none, [], true, false, none⟩ =
      .error ("No way to focus input. Set IDE_CHAT_FOCUS_HOTKEY or IDE_INPUT_REGION or IDE_INPUT_IMAGE or IDE_INPUT_POS.").data ∧
    focusTranscriptActs ⟨[], none, [], true, false, none⟩ =
      .error ("No way to focus transcript. Set IDE_FOCUS_TRANSCRIPT_HOTKEY or IDE_OUTPUT_REGION or IDE_OUTPUT_IMAGE or IDE_OUTPUT_POS.").data :=
  (C7_focus_priority_amended ⟨[], none, [], true, false, none⟩).2.2.2.2.2 rfl rfl rfl rfl

/-! ## Claim C8: sentinel-guarded transcript copy -/

/-- If no read inside the budget both differs from `old` and is non-blank, the
wait returns the final read. -/
theorem clipboardWaitGo_noGood (reads : Nat → List Char) (old : List Char) :
    ∀ n i, (∀ j, j < n → ¬(reads (i + j) ≠ old ∧ strip (reads (i + j)) ≠ [])) →
      clipboardWaitGo reads old i n = reads (i + n) := by
  intro n
  induction n with
  | zero => intro i _; simp [clipboardWaitGo]
  | succ m ih =>
    intro i h
    have h0 : ¬(reads i ≠ old ∧ strip (reads i) ≠ []) := by
      have := h 0 (Nat.succ_pos m)
      simpa using this
    have hrec := ih (i + 1) (fun j hj => by
      have := h (j + 1) (Nat.succ_lt_succ hj)
      simpa [Nat.add_assoc, Nat.add_comm 1 j] using this)
    simp only [clipboardWaitGo, h0, if_neg, if_false]
    rw [hrec]
    congr 1
    omega

/-- The wait returns the first read inside the budget that differs from `old`
and is non-blank. -/
theorem clipboardWaitGo_firstGood (reads : Nat → List Char) (old : List Char) :
    ∀ n i j, j < n → reads (i + j) ≠ old → strip (reads (i + j)) ≠ [] →
      (∀ l, l < j → ¬(reads (i + l) ≠ old ∧ strip (reads (i + l)) ≠ [])) →
      clipboardWaitGo reads old i n = reads (i + j) := by
  intro n
  induction n with
  | zero => intro i j hj; omega
  | succ m ih =>
    intro i j hj hne hnb hmin
    cases j with
    | zero =>
      have hgood : reads (i + 0) ≠ old ∧ strip (reads (i + 0)) ≠ [] := ⟨hne, hnb⟩
      simp only [Nat.add_zero] at hgood ⊢
      simp [clipboardWaitGo, hgood]
    | succ j0 =>
      have h0 : ¬(reads i ≠ old ∧ strip (reads i) ≠ []) := by
        have := hmin 0 (Nat.succ_pos j0)
        simpa using this
      have hrec := ih (i + 1) j0 (Nat.lt_of_succ_lt_succ hj)
        (by rw [show i + 1 + j0 = i + (j0 + 1) by omega]; exact hne)
        (by rw [show i + 1 + j0 = i + (j0 + 1) by omega]; exact hnb)
        (fun l hl => by
          have := hmin (l + 1) (Nat.succ_lt_succ hl)
          simpa [show i + 1 + l = i + (l + 1) by omega] using this)
      simp only [clipboardWaitGo, h0, if_neg, if_false]
      rw [hrec]
      congr 1
      omega

/-- C8: a successful transcript copy writes the time-based sentinel to the
clipboard before any other action, and its result is exactly the
clipboard-wait outcome: the first clipboard read that differs from the
sentinel and is non-blank when one occurs within the budget, and otherwise
the clipboard's final content — which may still be the sentinel. -/
theorem C8_sentinel_copy (c : FocusConfig) (copyHotkey : List Char) (timeNs : Nat)
    (reads : Nat → List Char) (polls : Nat) (out : List FocusAct × List Char)
    (hok : copyTranscriptText c copyHotkey timeNs reads polls = .ok out) :
    out.1.head? = some (.setClipboard (sentinelFor timeNs)) ∧
    out.2 = clipboardWaitForChange reads polls (sentinelFor timeNs) ∧
    (∀ j, j < polls → reads j ≠ sentinelFor timeNs → strip (reads j) ≠ [] →
      (∀ l, l < j → ¬(reads l ≠ sentinelFor timeNs ∧ strip (reads l) ≠ [])) →
      out.2 = reads j) ∧
    ((∀ j, j < polls → ¬(reads j ≠ sentinelFor timeNs ∧ strip (reads j) ≠ [])) →
      out.2 = reads polls) := by
  cases hf : focusTranscriptActs c with
  | error e =>
    rw [copyTranscriptText.eq_def, hf] at hok
    exact absurd hok (by simp)
  | ok facts =>
    rw [copyTranscriptText.eq_def, hf] at hok
    simp only at hok
    injection hok with hok
    subst hok
    refine ⟨rfl, rfl, fun j hj hne hnb hmin => ?_, fun hno => ?_⟩
    · have := clipboardWaitGo_firstGood reads (sentinelFor timeNs) polls 0 j hj
        (by simpa using hne) (by simpa using hnb)
        (fun l hl => by simpa using hmin l hl)
      simpa [clipboardWaitForChange] using this
    · have := clipboardWaitGo_noGood reads (sentinelFor timeNs) polls 0
        (fun j hj => by simpa using hno j hj)
      simpa [clipboardWaitForChange] using this

/-- C8 witness: with a transcript-focus hotkey and a copy hotkey configured,
timestamp 7 and a clipboard that never changes, the copy step writes the
sentinel first and, after the poll budget expires, returns the sentinel
itself. -/
theorem C8_witness :
    (([FocusAct.setClipboard (sentinelFor 7), FocusAct.hotkeyAct (("ctrl+end").data),
        FocusAct.hotkeyAct (("ctrl+shift+c").data)],
      sentinelFor 7) :
        List FocusAct × List Char).1.head? = some (.setClipboard (sentinelFor 7)) ∧
    sentinelFor 7 = clipboardWaitForChange (fun _ => sentinelFor 7) 2 (sentinelFor 7) ∧
    (∀ j, j < 2 → (fun _ => sentinelFor 7) j ≠ sentinelFor 7 →
      strip ((fun _ => sentinelFor 7) j) ≠ [] →
      (∀ l, l < j → ¬((fun _ => sentinelFor 7) l ≠ sentinelFor 7 ∧
        strip ((fun _ => sentinelFor 7) l) ≠ [])) →
      sentinelFor 7 = (fun _ => sentinelFor 7) j) ∧
    ((∀ j, j < 2 → ¬((fun _ => sentinelFor 7) j ≠ sentinelFor 7 ∧
        strip ((fun _ => sentinelFor 7) j) ≠ [])) →
      sentinelFor 7 = (fun _ => sentinelFor 7) 2) :=
  C8_sentinel_copy ⟨("ctrl+end").data, none, [], true, false, none⟩
    (("ctrl+shift+c").data) 7 (fun _ => sentinelFor 7) 2
    ([FocusAct.setClipboard (sentinelFor 7), FocusAct.hotkeyAct (("ctrl+end").data),
        FocusAct.hotkeyAct (("ctrl+shift+c").data)], sentinelFor 7)
    rfl

/-! ## Claims C2, C3: the send/retry controller -/

/-- When every attempt fails the success criterion, the attempt loop performs
all its iterations: one copy per attempt, one retry submit per non-final
attempt, no paste, and the final answer is the last attempt's extraction. -/
theorem chatAttemptLoop_allFail (ex : Nat → List Char) :
    ∀ r k, 0 < r → (∀ j, j < r → answerOk (ex (k + j)) = false) →
      (chatAttemptLoop ex k r).1.countP isCopyEvent = r ∧
      (chatAttemptLoop ex k r).1.count ChatEvent.pressEnter = r - 1 ∧
      (chatAttemptLoop ex k r).1.count ChatEvent.focusInputEvt = r - 1 ∧
      (chatAttemptLoop ex k r).1.count ChatEvent.pasteClipboard = 0 ∧
      (chatAttemptLoop ex k r).2 = ex (k + (r - 1)) := by
  intro r
  induction r with
  | zero => intro k h; omega
  | succ m ih =>
    intro k _ h
    have h0 : answerOk (ex (k + 0)) = false := h 0 (Nat.succ_pos m)
    simp only [Nat.add_zero] at h0
    by_cases hm : m = 0
    · subst hm
      simp [chatAttemptLoop, h0, isCopyEvent, List.count_cons, List.countP_cons]
    · have hrec := ih (k + 1) (Nat.pos_of_ne_zero hm) (fun j hj => by
        have := h (j + 1) (Nat.succ_lt_succ hj)
        simpa [show k + 1 + j = k + (j + 1) by omega] using this)
      simp only [chatAttemptLoop, h0, Bool.false_eq_true, if_false, hm]
      obtain ⟨c1, c2, c3, c4, c5⟩ := hrec
      refine ⟨?_, ?_, ?_, ?_, ?_⟩
      · simp [List.countP_cons, isCopyEvent, c1]
      · simp [List.count_cons, c2]; omega
      · simp [List.count_cons, c3]; omega
      · simp [List.count_cons, c4]
      · rw [c5]
        congr 1
        omega

/-- When attempt `j` is the first to satisfy the success criterion, the loop
stops there: `j + 1` copies, `j` retry submits, and the `j`-th extraction is
the final answer. -/
theorem chatAttemptLoop_firstSuccess (ex : Nat → List Char) :
    ∀ r k j, j < r → answerOk (ex (k + j)) = true →
      (∀ l, l < j → answerOk (ex (k + l)) = false) →
      (chatAttemptLoop ex k r).1.countP isCopyEvent = j + 1 ∧
      (chatAttemptLoop ex k r).1.count ChatEvent.pressEnter = j ∧
      (chatAttemptLoop ex k r).1.count ChatEvent.focusInputEvt = j ∧
      (chatAttemptLoop ex k r).1.count ChatEvent.pasteClipboard = 0 ∧
      (chatAttemptLoop ex k r).2 = ex (k + j) := by
  intro r
  induction r with
  | zero => intro k j hj; omega
  | succ m ih =>
    intro k j hj hok hmin
    cases j with
    | zero =>
      simp only [Nat.add_zero] at hok
      simp [chatAttemptLoop, hok, isCopyEvent, List.count_cons, List.countP_cons]
    | succ j0 =>
      have h0 : answerOk (ex (k + 0)) = false := hmin 0 (Nat.succ_pos j0)
      simp only [Nat.add_zero] at h0
      have hm : m ≠ 0 := by omega
      have hrec := ih (k + 1) j0 (by omega)
        (by rw [show k + 1 + j0 = k + (j0 + 1) by omega]; exact hok)
        (fun l hl => by
          have := hmin (l + 1) (Nat.succ_lt_succ hl)
          simpa [show k + 1 + l = k + (l + 1) by omega] using this)
      simp only [chatAttemptLoop, h0, Bool.false_eq_true, if_false, hm]
      obtain ⟨c1, c2, c3, c4, c5⟩ := hrec
      refine ⟨?_, ?_, ?_, ?_, ?_⟩
      · simp [List.countP_cons, isCopyEvent, c1]
      · simp [List.count_cons, c2]
      · simp [List.count_cons, c3]
      · simp [List.count_cons, c4]
      · rw [c5]
        congr 1
        omega

/-- The attempt loop never pastes the question again. -/
theorem chatAttemptLoop_no_paste (ex : Nat → List Char) :
    ∀ r k, (chatAttemptLoop ex k r).1.count ChatEvent.pasteClipboard = 0 := by
  intro r
  induction r with
  | zero => intro k; simp [chatAttemptLoop]
  | succ m ih =>
    intro k
    by_cases hok : answerOk (ex k) = true
    · simp [chatAttemptLoop, hok, List.count_cons]
    · have hok' : answerOk (ex k) = false := by
        cases h : answerOk (ex k) with
        | true => exact absurd h hok
        | false => rfl
      by_cases hm : m = 0
      · subst hm; simp [chatAttemptLoop, hok', List.count_cons]
      · simp [chatAttemptLoop, hok', hm, List.count_cons, ih (k + 1)]

/-- C2: for a retry count `r ≥ 0`, the send/retry controller pastes the
question exactly once; if every attempt fails the success criterion
(`answerOk`: non-empty, not the placeholder, at least 4 characters after
trimming) it performs exactly `1 + r` submits and `1 + r` copy attempts
before giving up; and if attempt `k` is the first success the loop stops
there, returning the `k`-th extraction, having re-focused the input and
re-issued the Enter keystroke (without re-pasting) once per failed attempt. -/
theorem C2_send_retry (markersCfg : List Char) (copyFn : Nat → List Char)
    (r : Int) (hr : 0 ≤ r) :
    (ideChatSendRetry markersCfg copyFn r).1.count ChatEvent.pasteClipboard = 1 ∧
    ((∀ j, j < 1 + r.toNat →
        answerOk (extractLastAiAnswer markersCfg (copyFn j)) = false) →
      (ideChatSendRetry markersCfg copyFn r).1.count ChatEvent.pressEnter = 1 + r.toNat ∧
      (ideChatSendRetry markersCfg copyFn r).1.countP isCopyEvent = 1 + r.toNat) ∧
    (∀ k, k < 1 + r.toNat →
      answerOk (extractLastAiAnswer markersCfg (copyFn k)) = true →
      (∀ l, l < k → answerOk (extractLastAiAnswer markersCfg (copyFn l)) = false) →
      (ideChatSendRetry markersCfg copyFn r).2 =
        extractLastAiAnswer markersCfg (copyFn k) ∧
      (ideChatSendRetry markersCfg copyFn r).1.countP isCopyEvent = k + 1 ∧
      (ideChatSendRetry markersCfg copyFn r).1.count ChatEvent.pressEnter = k + 1 ∧
      (ideChatSendRetry markersCfg copyFn r).1.count ChatEvent.focusInputEvt = k + 1) := by
  have htot : (max 1 (1 + r)).toNat = 1 + r.toNat := by omega
  simp only [ideChatSendRetry, htot]
  set ex := fun k => extractLastAiAnswer markersCfg (copyFn k) with hex
  refine ⟨?_, fun hfail => ?_, fun k hk hok hmin => ?_⟩
  · simp [List.count_cons, chatAttemptLoop_no_paste]
  · have := chatAttemptLoop_allFail ex (1 + r.toNat) 0 (by omega)
      (fun j hj => by simpa using hfail j hj)
    constructor
    · simp [List.count_cons, this.2.1]
      omega
    · simp [List.countP_cons, isCopyEvent, this.1]
  · have := chatAttemptLoop_firstSuccess ex (1 + r.toNat) 0 k hk
      (by simpa using hok) (fun l hl => by simpa using hmin l hl)
    obtain ⟨c1, c2, c3, c4, c5⟩ := this
    have c5' : (chatAttemptLoop ex 0 (1 + r.toNat)).2 = ex k := by
      rw [c5]; congr 1; omega
    have hok2 : answerOk (ex k) = true := hok
    have hne : ex k ≠ [] := by
      intro hcontra
      rw [hcontra] at hok2
      simp [answerOk] at hok2
    refine ⟨?_, ?_, ?_, ?_⟩
    · simp only [c5', if_neg hne]
    · simp [List.countP_cons, isCopyEvent, c1]
    · simp [List.count_cons, c2]
    · simp [List.count_cons, c3]

/-- C2 witness: with retry count 2 and an extractor that only succeeds on the
third attempt (matching the spec's example), the controller performs exactly
3 send attempts and returns the third extraction. -/
theorem C2_witness :
    (ideChatSendRetry (("Assistant:").data)
        (fun k => if k = 2 then ("Assistant: hello world").data else []) 2).2 =
      extractLastAiAnswer (("Assistant:").data)
        ((fun k => if k = 2 then ("Assistant: hello world").data else []) 2) ∧
    (ideChatSendRetry (("Assistant:").data)
        (fun k => if k = 2 then ("Assistant: hello world").data else []) 2).1.countP
      isCopyEvent = 2 + 1 ∧
    (ideChatSendRetry (("Assistant:").data)
        (fun k => if k = 2 then ("Assistant: hello world").data else []) 2).1.count
      ChatEvent.pressEnter = 2 + 1 ∧
    (ideChatSendRetry (("Assistant:").data)
        (fun k => if k = 2 then ("Assistant: hello world").data else []) 2).1.count
      ChatEvent.focusInputEvt = 2 + 1 :=
  (C2_send_retry (("Assistant:").data)
      (fun k => if k = 2 then ("Assistant: hello world").data else []) 2
      (by decide)).2.2 2 (by decide) (by decide) (by decide)

/-- C3 counterexample: the claim says exhausting all attempts yields the
placeholder `(no answer extracted)`, but with one total attempt and a
transcript extracting to `hi` (which fails the ≥ 4-characters success
criterion) the controller completes with `hi`, not the placeholder. -/
theorem C3_counterexample :
    answerOk (extractLastAiAnswer (("Assistant:").data) (("Assistant: hi").data)) =
      false ∧
    (ideChatSendRetry (("Assistant:").data) (fun _ => ("Assistant: hi").data) 0).2 =
      ("hi").data ∧
    ("hi").data ≠ noAnswerPlaceholder := by
  refine ⟨by decide, by decide, by decide⟩

/-- C3 (amended): exhausting all attempts without satisfying the success
criterion completes the job with the final attempt's extraction; the
placeholder `(no answer extracted)` is substituted exactly when that final
extraction is empty. -/
theorem C3_exhaustion_amended (markersCfg : List Char) (copyFn : Nat → List Char)
    (r : Int) (hr : 0 ≤ r)
    (hfail : ∀ j, j < 1 + r.toNat →
      answerOk (extractLastAiAnswer markersCfg (copyFn j)) = false) :
    (ideChatSendRetry markersCfg copyFn r).2 =
      if extractLastAiAnswer markersCfg (copyFn r.toNat) = [] then noAnswerPlaceholder
      else extractLastAiAnswer markersCfg (copyFn r.toNat) := by
  have htot : (max 1 (1 + r)).toNat = 1 + r.toNat := by omega
  simp only [ideChatSendRetry, htot]
  set ex := fun k => extractLastAiAnswer markersCfg (copyFn k) with hex
  have := chatAttemptLoop_allFail ex (1 + r.toNat) 0 (by omega)
    (fun j hj => by simpa using hfail j hj)
  have c5 : (chatAttemptLoop ex 0 (1 + r.toNat)).2 = ex r.toNat := by
    rw [this.2.2.2.2]; congr 1; omega
  simp only [c5]

/-- C3 witness: one attempt, clipboard always empty, extraction empty — the
result is the placeholder. -/
theorem C3_witness :
    (ideChatSendRetry (("Assistant:").data) (fun _ => []) 0).2 =
      (if extractLastAiAnswer (("Assistant:").data) ((fun (_ : Nat) => ([] : List Char)) ((0 : Int).toNat)) = []
        then noAnswerPlaceholder
        else extractLastAiAnswer (("Assistant:").data) ((fun (_ : Nat) => ([] : List Char)) ((0 : Int).toNat))) :=
  C3_exhaustion_amended (("Assistant:").data) (fun _ => []) 0 (by decide) (by decide)

/-! ## Claim C1: answer extraction

Supporting lemmas about `lastOccFrom`, `rfind`, the marker fold and
whitespace trimming. -/

/-- A `some` result of the downward scan is an occurrence and the largest one
below the start index. -/
theorem lastOccFrom_some (needle hay : List Char) :
    ∀ i k, lastOccFrom needle hay i = some k →
      k ≤ i ∧ needle.isPrefixOf (hay.drop k) = true ∧
      ∀ j, j ≤ i → needle.isPrefixOf (hay.drop j) = true → j ≤ k := by
  intro i
  induction i with
  | zero =>
    intro k h
    rw [lastOccFrom] at h
    cases hp : needle.isPrefixOf hay with
    | true =>
      rw [if_pos hp] at h
      injection h with h
      subst h
      exact ⟨Nat.le_refl 0, by simpa using hp, fun j hj _ => hj⟩
    | false =>
      rw [if_neg (by simp [hp])] at h
      exact absurd h (by simp)
  | succ i ih =>
    intro k h
    rw [lastOccFrom] at h
    cases hp : needle.isPrefixOf (hay.drop (i + 1)) with
    | true =>
      rw [if_pos hp] at h
      injection h with h
      subst h
      exact ⟨Nat.le_refl _, hp, fun j hj _ => hj⟩
    | false =>
      rw [if_neg (by simp [hp])] at h
      obtain ⟨hk, hocc, hmax⟩ := ih k h
      refine ⟨Nat.le_succ_of_le hk, hocc, fun j hj hjocc => ?_⟩
      rcases Nat.lt_or_ge j (i + 1) with hlt | hge
      · exact hmax j (Nat.lt_succ_iff.mp hlt) hjocc
      · have : j = i + 1 := Nat.le_antisymm hj hge
        subst this
        rw [hjocc] at hp
        exact absurd hp (by simp)

/-- A `none` result of the downward scan means no occurrence below the start
index. -/
theorem lastOccFrom_none (needle hay : List Char) :
    ∀ i, lastOccFrom needle hay i = none →
      ∀ j, j ≤ i → needle.isPrefixOf (hay.drop j) = false := by
  intro i
  induction i with
  | zero =>
    intro h j hj
    interval_cases j
    rw [lastOccFrom] at h
    cases hp : needle.isPrefixOf hay with
    | true => rw [if_pos hp] at h; exact absurd h (by simp)
    | false => simpa using hp
  | succ i ih =>
    intro h j hj
    rw [lastOccFrom] at h
    cases hp : needle.isPrefixOf (hay.drop (i + 1)) with
    | true => rw [if_pos hp] at h; exact absurd h (by simp)
    | false =>
      rw [if_neg (by simp [hp])] at h
      rcases Nat.lt_or_ge j (i + 1) with hlt | hge
      · exact ih h j (Nat.lt_succ_iff.mp hlt)
      · have : j = i + 1 := Nat.le_antisymm hj hge
        subst this
        exact hp

/-- A non-empty needle can only occur at an index inside the haystack. -/
theorem occurrence_le_length (needle hay : List Char) (j : Nat)
    (hne : needle ≠ []) (hocc : needle.isPrefixOf (hay.drop j) = true) :
    j ≤ hay.length := by
  by_contra hgt
  have hdrop : hay.drop j = [] := by
    apply List.drop_eq_nil_of_le
    omega
  rw [hdrop] at hocc
  obtain ⟨c, cs, rfl⟩ := List.exists_cons_of_ne_nil hne
  simp [List.isPrefixOf] at hocc

/-- `rfind` is `-1` or a genuine index. -/
theorem rfind_cases (needle hay : List Char) :
    rfind needle hay = -1 ∨ ∃ k, rfind needle hay = Int.ofNat k := by
  rw [rfind]
  cases lastOccFrom needle hay hay.length with
  | none => exact Or.inl rfl
  | some k => exact Or.inr ⟨k, rfl⟩

/-- `rfind` is at least `-1`. -/
theorem rfind_ge (needle hay : List Char) : -1 ≤ rfind needle hay := by
  rcases rfind_cases needle hay with h | ⟨k, h⟩
  · omega
  · have h0 : (0 : Int) ≤ Int.ofNat k := Int.ofNat_nonneg k
    omega

/-- `rfind = -1` means the needle occurs nowhere. -/
theorem rfind_eq_neg_one (needle hay : List Char)
    (h : rfind needle hay = -1) :
    ∀ j, needle.isPrefixOf (hay.drop j) = false := by
  intro j
  rw [rfind] at h
  cases hlo : lastOccFrom needle hay hay.length with
  | some k => rw [hlo] at h; simp at h
  | none =>
    have hne : needle ≠ [] := by
      intro hnil
      subst hnil
      have := lastOccFrom_none [] hay hay.length hlo hay.length (Nat.le_refl _)
      simp [List.isPrefixOf] at this
    by_cases hj : j ≤ hay.length
    · exact lastOccFrom_none needle hay hay.length hlo j hj
    · cases hval : needle.isPrefixOf (hay.drop j) with
      | false => rfl
      | true => exact absurd (occurrence_le_length needle hay j hne hval) hj

/-- A non-negative `rfind` is the right-most occurrence index. -/
theorem rfind_eq_some (needle hay : List Char) (k : Nat)
    (hne : needle ≠ []) (h : rfind needle hay = Int.ofNat k) :
    needle.isPrefixOf (hay.drop k) = true ∧
    ∀ j, needle.isPrefixOf (hay.drop j) = true → j ≤ k := by
  rw [rfind] at h
  cases hlo : lastOccFrom needle hay hay.length with
  | none => rw [hlo] at h; simp at h
  | some k0 =>
    rw [hlo] at h
    have hk : k0 = k := Int.ofNat.inj h
    subst hk
    obtain ⟨_, hocc, hmax⟩ := lastOccFrom_some needle hay hay.length k0 hlo
    exact ⟨hocc, fun j hj =>
      hmax j (occurrence_le_length needle hay j hne hj) hj⟩

/-- Invariant of the marker fold: the result dominates the accumulator and
every scanned marker, and is either the accumulator or one of the scanned
markers paired with its own `rfind`. -/
theorem findBest_fold (lowered : List Char) :
    ∀ (ms : List (List Char)) (acc : Int × List Char),
      (∀ m ∈ ms, rfind (lower m) lowered ≤
        (ms.foldl (findBestStep lowered) acc).1) ∧
      acc.1 ≤ (ms.foldl (findBestStep lowered) acc).1 ∧
      (ms.foldl (findBestStep lowered) acc = acc ∨
        ∃ m ∈ ms, ms.foldl (findBestStep lowered) acc =
          (rfind (lower m) lowered, m)) := by
  intro ms
  induction ms with
  | nil => intro acc; exact ⟨by simp, le_refl _, Or.inl rfl⟩
  | cons m ms ih =>
    intro acc
    simp only [List.foldl_cons]
    obtain ⟨ub, mono, att⟩ := ih (findBestStep lowered acc m)
    have hstep : acc.1 ≤ (findBestStep lowered acc m).1 ∧
        rfind (lower m) lowered ≤ (findBestStep lowered acc m).1 := by
      simp only [findBestStep]
      by_cases hlt : acc.1 < rfind (lower m) lowered
      · rw [if_pos hlt]; exact ⟨le_of_lt hlt, le_refl _⟩
      · rw [if_neg hlt]; exact ⟨le_refl _, le_of_not_lt hlt⟩
    refine ⟨?_, le_trans hstep.1 mono, ?_⟩
    · intro m' hm'
      rcases List.mem_cons.mp hm' with rfl | hmem
      · exact le_trans hstep.2 mono
      · exact ub m' hmem
    · rcases att with heq | ⟨m', hm', heq⟩
      · by_cases hlt : acc.1 < rfind (lower m) lowered
        · rw [heq]
          simp only [findBestStep]
          rw [if_pos hlt]
          exact Or.inr ⟨m, List.mem_cons_self m ms, rfl⟩
        · rw [heq]
          simp only [findBestStep]
          rw [if_neg hlt]
          exact Or.inl rfl
      · exact Or.inr ⟨m', List.mem_cons_of_mem m hm', heq⟩

/-- Members of the parsed marker list are non-empty. -/
theorem parseMarkers_ne_nil (cfg : List Char) (m : List Char)
    (hm : m ∈ parseMarkers cfg) : m ≠ [] := by
  have := List.of_mem_filter hm
  simpa using this

/-- `lower` keeps a list non-empty. -/
theorem lower_ne_nil (m : List Char) (h : m ≠ []) : lower m ≠ [] := by
  intro hcontra
  exact h (List.map_eq_nil_iff.mp hcontra)

/-- Dropping a prefix preserves `dropWhile`-invariance. -/
theorem dropWhile_take_of_eq_self (p : Char → Bool) (l : List Char) (n : Nat)
    (h : l.dropWhile p = l) : (l.take n).dropWhile p = l.take n := by
  cases l with
  | nil => simp
  | cons c l' =>
    cases n with
    | zero => simp
    | succ n' =>
      have hc : p c = false := by
        cases hval : p c with
        | false => rfl
        | true =>
          rw [List.dropWhile_cons, if_pos hval] at h
          have hlen := (List.dropWhile_sublist (l := l') p).length_le
          have := congrArg List.length h
          simp at this
          omega
      simp [List.take_succ_cons, List.dropWhile_cons, hc]

/-- `dropWhile` is idempotent. -/
theorem dropWhile_self (p : Char → Bool) (l : List Char) :
    (l.dropWhile p).dropWhile p = l.dropWhile p := by
  induction l with
  | nil => simp
  | cons c l' ih =>
    cases hval : p c with
    | true => simp [List.dropWhile_cons, hval, ih]
    | false => simp [List.dropWhile_cons, hval]

/-- `rstrip` is idempotent. -/
theorem rstrip_idem (t : List Char) : rstrip (rstrip t) = rstrip t := by
  simp only [rstrip, List.reverse_reverse]
  rw [dropWhile_self]

/-- A list with no trailing whitespace keeps that property under `drop`. -/
theorem rstrip_drop (t : List Char) (k : Nat) (h : rstrip t = t) :
    rstrip (t.drop k) = t.drop k := by
  have hrev : t.reverse.dropWhile isPySpace = t.reverse := by
    have := congrArg List.reverse h
    simpa [rstrip] using this
  simp only [rstrip, List.reverse_drop]
  rw [dropWhile_take_of_eq_self isPySpace t.reverse (t.length - k) hrev,
    ← List.reverse_drop, List.reverse_reverse]

/-- `lstrip` is some `drop`. -/
theorem lstrip_eq_drop (s : List Char) : ∃ k, lstrip s = s.drop k := by
  simp only [lstrip]
  induction s with
  | nil => exact ⟨0, rfl⟩
  | cons c s' ih =>
    cases hval : isPySpace c with
    | true =>
      obtain ⟨k, hk⟩ := ih
      exact ⟨k + 1, by simp [List.dropWhile_cons, hval, hk]⟩
    | false =>
      exact ⟨0, by simp [List.dropWhile_cons, hval]⟩

/-- On a suffix of a right-stripped list, the final `.strip()` of the
extraction only left-trims: `strip (lstrip s) = lstrip s`. -/
theorem strip_lstrip_drop (t : List Char) (k : Nat) (h : rstrip t = t) :
    strip (lstrip (t.drop k)) = lstrip (t.drop k) := by
  obtain ⟨k', hk'⟩ := lstrip_eq_drop (t.drop k)
  have hdd : lstrip (t.drop k) = t.drop (k' + k) := by
    rw [hk', List.drop_drop, Nat.add_comm]
  have hls : lstrip (t.drop (k' + k)) = t.drop (k' + k) := by
    rw [← hdd]
    exact dropWhile_self _ _
  calc strip (lstrip (t.drop k)) = strip (t.drop (k' + k)) := by rw [hdd]
    _ = rstrip (lstrip (t.drop (k' + k))) := rfl
    _ = rstrip (t.drop (k' + k)) := by rw [hls]
    _ = t.drop (k' + k) := rstrip_drop t (k' + k) h
    _ = lstrip (t.drop k) := hdd.symm

/-- `strip` leaves no trailing whitespace. -/
theorem rstrip_strip (s : List Char) : rstrip (strip s) = strip s := by
  rw [strip, rstrip_idem]

/-- C1: on the normalized, trimmed text, extraction returns (i) the empty
string when the trimmed input is empty, (ii) the trimmed last 120 lines when
no configured marker occurs case-insensitively anywhere, and (iii) otherwise
the substring strictly after a right-most case-insensitive marker occurrence
(one whose index dominates every occurrence of every marker), left-trimmed. -/
theorem C1_extract_last_answer (markersCfg fullText : List Char) :
    (strip (normalizeCRLF fullText) = [] →
      extractLastAiAnswer markersCfg fullText = []) ∧
    (strip (normalizeCRLF fullText) ≠ [] →
      (∀ m ∈ parseMarkers markersCfg, ∀ i,
        ¬ MarkerOccursAt m (strip (normalizeCRLF fullText)) i) →
      extractLastAiAnswer markersCfg fullText =
        strip (List.intercalate ['\n']
          ((splitOnChar '\n' (strip (normalizeCRLF fullText))).drop
            ((splitOnChar '\n' (strip (normalizeCRLF fullText))).length - 120)))) ∧
    ((∃ m ∈ parseMarkers markersCfg, ∃ i,
        MarkerOccursAt m (strip (normalizeCRLF fullText)) i) →
      ∃ m ∈ parseMarkers markersCfg, ∃ i,
        MarkerOccursAt m (strip (normalizeCRLF fullText)) i ∧
        (∀ m' ∈ parseMarkers markersCfg, ∀ j,
          MarkerOccursAt m' (strip (normalizeCRLF fullText)) j → j ≤ i) ∧
        extractLastAiAnswer markersCfg fullText =
          lstrip ((strip (normalizeCRLF fullText)).drop (i + m.length))) := by
  set text := strip (normalizeCRLF fullText) with htext
  refine ⟨fun hempty => ?_, fun hne hno => ?_, fun hex => ?_⟩
  · simp only [extractLastAiAnswer, ← htext]
    rw [if_pos hempty]
  · have hall : ∀ m ∈ parseMarkers markersCfg, rfind (lower m) (lower text) = -1 := by
      intro m hm
      rcases rfind_cases (lower m) (lower text) with hc | ⟨k, hk⟩
      · exact hc
      · exfalso
        have hocc := (rfind_eq_some (lower m) (lower text) k
          (lower_ne_nil m (parseMarkers_ne_nil markersCfg m hm)) hk).1
        exact hno m hm k hocc
    have hbest : (findBest (parseMarkers markersCfg) (lower text)).1 = -1 := by
      obtain ⟨ub, mono, att⟩ :=
        findBest_fold (lower text) (parseMarkers markersCfg) (-1, [])
      rcases att with heq | ⟨m, hm, heq⟩
      · rw [findBest, heq]
      · rw [findBest, heq]
        exact hall m hm
    simp only [extractLastAiAnswer, ← htext]
    rw [if_neg hne, if_neg (by rw [hbest]; omega)]
  · obtain ⟨m0, hm0, i0, hocc0⟩ := hex
    have hm0ne : lower m0 ≠ [] :=
      lower_ne_nil m0 (parseMarkers_ne_nil markersCfg m0 hm0)
    have h0 : rfind (lower m0) (lower text) ≠ -1 := by
      intro hcontra
      have hfalse := rfind_eq_neg_one (lower m0) (lower text) hcontra i0
      have hocc0' : (lower m0).isPrefixOf ((lower text).drop i0) = true := hocc0
      rw [hocc0'] at hfalse
      exact absurd hfalse (by simp)
    have hnetext : text ≠ [] := by
      intro hcontra
      have hocc0' : (lower m0).isPrefixOf ((lower text).drop i0) = true := hocc0
      rw [hcontra] at hocc0'
      obtain ⟨c, cs, hcons⟩ := List.exists_cons_of_ne_nil hm0ne
      rw [hcons] at hocc0'
      simp [lower, List.isPrefixOf] at hocc0'
    obtain ⟨ub, mono, att⟩ :=
      findBest_fold (lower text) (parseMarkers markersCfg) (-1, [])
    rcases rfind_cases (lower m0) (lower text) with hc | ⟨k0, hk0⟩
    · exact absurd hc h0
    have hge0 : (0 : Int) ≤
        ((parseMarkers markersCfg).foldl (findBestStep (lower text)) (-1, [])).1 := by
      refine le_trans ?_ (ub m0 hm0)
      rw [hk0]
      exact Int.ofNat_nonneg k0
    rcases att with heq | ⟨m, hm, heq⟩
    · rw [heq] at hge0
      exact absurd hge0 (by norm_num)
    rcases rfind_cases (lower m) (lower text) with hc | ⟨k, hk⟩
    · rw [heq, hc] at hge0
      exact absurd hge0 (by norm_num)
    have hmne : lower m ≠ [] :=
      lower_ne_nil m (parseMarkers_ne_nil markersCfg m hm)
    refine ⟨m, hm, k, (rfind_eq_some (lower m) (lower text) k hmne hk).1,
      fun m' hm' j hocc' => ?_, ?_⟩
    · have hocc'' : (lower m').isPrefixOf ((lower text).drop j) = true := hocc'
      have hne' : lower m' ≠ [] :=
        lower_ne_nil m' (parseMarkers_ne_nil markersCfg m' hm')
      rcases rfind_cases (lower m') (lower text) with hc' | ⟨k', hk'⟩
      · have hfalse := rfind_eq_neg_one (lower m') (lower text) hc' j
        rw [hocc''] at hfalse
        exact absurd hfalse (by simp)
      · have hmax := (rfind_eq_some (lower m') (lower text) k' hne' hk').2 j hocc''
        have hub' := ub m' hm'
        rw [hk', heq, hk] at hub'
        exact le_trans hmax (Int.ofNat_le.mp hub')
    · have hbest : findBest (parseMarkers markersCfg) (lower text) = (Int.ofNat k, m) := by
        rw [findBest, heq, hk]
      simp only [extractLastAiAnswer, ← htext]
      rw [if_neg hnetext, hbest]
      rw [if_pos (by exact Int.ofNat_nonneg k)]
      have htn : (Int.ofNat k).toNat = k := rfl
      rw [htn]
      exact strip_lstrip_drop text (k + m.length) (by rw [htext]; exact rstrip_strip _)

/-- C1 witness: the spec's own example — markers `Assistant:`, text
`Q\nAssistant: 42\nAssistant: hi there` — has its right-most occurrence at
index 16, and extraction returns `hi there`. -/
theorem C1_witness :
    ∃ m ∈ parseMarkers (("Assistant:").data), ∃ i,
      MarkerOccursAt m
        (strip (normalizeCRLF (("Q\nAssistant: 42\nAssistant: hi there").data))) i ∧
      (∀ m' ∈ parseMarkers (("Assistant:").data), ∀ j,
        MarkerOccursAt m'
          (strip (normalizeCRLF (("Q\nAssistant: 42\nAssistant: hi there").data))) j →
        j ≤ i) ∧
      extractLastAiAnswer (("Assistant:").data)
          (("Q\nAssistant: 42\nAssistant: hi there").data) =
        lstrip ((strip (normalizeCRLF
          (("Q\nAssistant: 42\nAssistant: hi there").data))).drop (i + m.length)) :=
  (C1_extract_last_answer (("Assistant:").data)
      (("Q\nAssistant: 42\nAssistant: hi there").data)).2.2
    ⟨("Assistant:").data, by decide, 16, by decide⟩

end FingerPrince
